import Mathlib

/-!
Shallow embedding of `src/contracts/market/src/nft_callbacks.rs` of the
gnr8 marketplace contract: the two approval callbacks `nft_on_approve`
(single-item approval) and `series_on_approve` (category/series approval),
together with the contract state they mutate.

NEAR runtime semantics: an `assert!`/`env::panic` aborts the whole receipt
and every state mutation performed so far is discarded.  The handlers are
therefore embedded as functions `Contract -> Except MarketError Contract`:
an `.error` result carries no state, which is exactly the all-or-nothing
rollback of the host runtime.

Machine integers: `u128` balances and `u64` counters are embedded as `Nat`.
None of the arithmetic in the two handlers can overflow `u128` for the
values reachable on-chain (sums of yoctoNEAR deposits), so no `% 2^128`
reduction is needed for faithfulness; `saturating_sub` is `Nat` subtraction,
which is exactly saturating.
-/

set_option autoImplicit false

namespace Gnr8

abbrev AccountId := String
abbrev TokenId := String

/-- Association-list map with upsert semantics; models the NEAR
`UnorderedMap`/`LookupMap`/`HashMap` containers used by the contract.
`mapInsert` overwrites the value when the key is present (no merge). -/
def mapInsert {α β : Type} [DecidableEq α] : List (α × β) → α → β → List (α × β)
  | [], k, v => [(k, v)]
  | (k', v') :: rest, k, v =>
    if k' = k then (k, v) :: rest else (k', v') :: mapInsert rest k v

def mapGet {α β : Type} [DecidableEq α] : List (α × β) → α → Option β
  | [], _ => none
  | (k', v') :: rest, k => if k' = k then some v' else mapGet rest k

def mapKeys {α β : Type} (m : List (α × β)) : List α := m.map Prod.fst

/-- Set insertion; models `UnorderedSet::insert`: a no-op when the element
is already present, an append otherwise. -/
def setInsert {α : Type} [DecidableEq α] (s : List α) (x : α) : List α :=
  if x ∈ s then s else s ++ [x]

/-- Rust `str::contains`: `strStartsAt hay needle` is prefix matching on
character lists, `strContains` tries every suffix of the haystack. -/
def strStartsAt : List Char → List Char → Bool
  | _, [] => true
  | [], _ :: _ => false
  | c :: cs, d :: ds => c = d && strStartsAt cs ds

def strContainsL : List Char → List Char → Bool
  | [], needle => strStartsAt [] needle
  | hay@(_ :: rest), needle => strStartsAt hay needle || strContainsL rest needle

def strContains (hay needle : String) : Bool := strContainsL hay.data needle.data

/-- One entry of `sale_conditions` (struct `Price` of the contract crate):
an optional `U128` string-encoded price and the currency (`ft_token_id`).
An absent price means "open to bids". -/
structure Price where
  price : Option Nat
  ft_token_id : AccountId
deriving DecidableEq

/-- The parsed message payload (struct `SaleArgs`). -/
structure SaleArgs where
  sale_conditions : List Price
  token_type : Option String
deriving DecidableEq

/-- The listing record (struct `Sale`).  `conditions` is the `HashMap`
from currency id to price, embedded as an upsert association list. -/
structure Sale where
  owner_id : AccountId
  created_at : Nat
  approval_id : Nat
  nft_contract_id : AccountId
  token_id : TokenId
  conditions : List (AccountId × Nat)
  is_series : Option Bool
  token_type : Option String
  bids : Option Unit
deriving DecidableEq

/-- The contract state fields read or written by the two callbacks.
Modelled from the spec: the `Contract` struct itself is declared outside
`src/` (§2, §4.2-4.3); these are the Listing Store (`sales`), the three
indices, the Quota Ledger balances (`storage_deposits`) and the Currency
Registry (`ft_token_ids`). -/
structure Contract where
  storage_deposits : List (AccountId × Nat)
  ft_token_ids : List AccountId
  sales : List (String × Sale)
  by_owner_id : List (AccountId × List String)
  by_nft_contract_id : List (AccountId × List String)
  by_nft_token_type : List (String × List String)
deriving DecidableEq

/-- The host-environment inputs the handlers read. -/
structure Env where
  predecessor_account_id : AccountId
  block_timestamp : Nat
  attached_deposit : Nat
deriving DecidableEq

/-- The panic reasons of the two handlers, named after the spec's error
taxonomy (§7).  `insufficientQuota` covers both storage asserts
("Required minimum storage to sell on market" and "User has more sales
than storage paid"); `quotaPurchaseFailed` is an upstream failure of the
external quota purchase in the category path (§4.1b). -/
inductive MarketError where
  | insufficientQuota
  | malformedRequest
  | unsupportedCurrency (ft_token_id : AccountId)
  | invalidCategoryTag
  | quotaPurchaseFailed
deriving DecidableEq

/-- Modelled from the spec: `STORAGE_PER_SALE`, the per-sale storage cost,
is a constant defined outside `src/` (10^19 yoctoNEAR in the deployed
contract); one quota unit costs this much. -/
def STORAGE_PER_SALE : Nat := 10000000000000000000

/-- Modelled from the spec: `DELIMETER`, the reserved listing-key
separator, is defined outside `src/`; §6 says it is a single
non-alphanumeric character. -/
def DELIMETER : String := "."

/-- The composite listing key `nft_contract_id ++ DELIMETER ++ token_id`. -/
def listingKey (nft_contract_id : AccountId) (token_id : String) : String :=
  nft_contract_id ++ DELIMETER ++ token_id

/-- The `for Price { price, ft_token_id } in sale_conditions` loop of both
handlers: panics (`.error`) at the first currency missing from the
registry, otherwise inserts `price.unwrap_or(0)` into the conditions map. -/
def buildConditionsAux (reg : List AccountId) (acc : List (AccountId × Nat)) :
    List Price → Except MarketError (List (AccountId × Nat))
  | [] => .ok acc
  | p :: rest =>
    if p.ft_token_id ∈ reg then
      buildConditionsAux reg (mapInsert acc p.ft_token_id (p.price.getD 0)) rest
    else .error (.unsupportedCurrency p.ft_token_id)

def buildConditions (reg : List AccountId) (scs : List Price) :
    Except MarketError (List (AccountId × Nat)) :=
  buildConditionsAux reg [] scs

/-- `nft_on_approve` (single-item approval), translated line by line from
`nft_callbacks.rs` lines 19-115.  The JSON parse
`serde_json::from_str(&msg)` is external; the message is embedded by its
parse result (`none` = "Not valid SaleArgs").  Each `assert!`/`env::panic`
becomes an `.error`, which per the NEAR rollback discards every mutation
built so far. -/
def nft_on_approve (c : Contract) (env : Env) (token_id : TokenId)
    (owner_id : AccountId) (approval_id : Nat) (msg : Option SaleArgs) :
    Except MarketError Contract :=
  let owner_paid_storage := (mapGet c.storage_deposits owner_id).getD 0
  if owner_paid_storage < STORAGE_PER_SALE then .error .insufficientQuota else
  match msg with
  | none => .error .malformedRequest
  | some args =>
    match buildConditions c.ft_token_ids args.sale_conditions with
    | .error e => .error e
    | .ok conditions =>
      let nft_contract_id := env.predecessor_account_id
      let contract_and_token_id := listingKey nft_contract_id token_id
      let c1 : Contract := { c with
        sales := mapInsert c.sales contract_and_token_id
          { owner_id := owner_id, created_at := env.block_timestamp,
            approval_id := approval_id, nft_contract_id := nft_contract_id,
            token_id := token_id, conditions := conditions,
            is_series := none, token_type := args.token_type, bids := none } }
      let by_owner_id := (mapGet c1.by_owner_id owner_id).getD []
      let owner_occupied_storage := by_owner_id.length * STORAGE_PER_SALE
      if owner_paid_storage ≤ owner_occupied_storage then .error .insufficientQuota else
      let c2 : Contract := { c1 with
        by_owner_id := mapInsert c1.by_owner_id owner_id
          (setInsert by_owner_id contract_and_token_id) }
      let by_nft_contract_id := (mapGet c2.by_nft_contract_id nft_contract_id).getD []
      let c3 : Contract := { c2 with
        by_nft_contract_id := mapInsert c2.by_nft_contract_id nft_contract_id
          (setInsert by_nft_contract_id contract_and_token_id) }
      match args.token_type with
      | none => .ok c3
      | some token_type =>
        if strContains token_id token_type then
          let by_nft_token_type := (mapGet c3.by_nft_token_type token_type).getD []
          .ok { c3 with
            by_nft_token_type := mapInsert c3.by_nft_token_type token_type
              (setInsert by_nft_token_type contract_and_token_id) }
        else .error .invalidCategoryTag

/-- Modelled from the spec: `Contract::storage_amount` is defined outside
`src/`; per §4.1(b)/§6 it is the lister's current minimum required
amount, the cost of one quota unit. -/
def storage_amount : Nat := STORAGE_PER_SALE

/-- Modelled from the spec: `Contract::storage_deposit` (the Quota Ledger
purchase `purchaseQuota`, §6) is defined outside `src/`.  It charges the
attached payment toward quota, crediting the requested amount to the
account's balance, and fails upstream when the attached payment does not
cover that amount (§4.1b: "the quota purchase itself failed upstream"). -/
def storage_deposit (c : Contract) (env : Env) (account_id : AccountId)
    (amount : Nat) : Except MarketError Contract :=
  if env.attached_deposit < amount then .error .quotaPurchaseFailed
  else .ok { c with
    storage_deposits := mapInsert c.storage_deposits account_id
      ((mapGet c.storage_deposits account_id).getD 0 + amount) }

/-- `series_on_approve` (category approval), translated line by line from
`nft_callbacks.rs` lines 125-214.  Returns the post state together with
the amount of the best-effort refund transfer
`attached_deposit.saturating_sub(storage_amount)`; on a panic the refund
promise is dropped with the rest of the receipt. -/
def series_on_approve (c : Contract) (env : Env) (series_name : String)
    (owner_id : AccountId) (msg : SaleArgs) :
    Except MarketError (Contract × Nat) :=
  let storage_amount_v := storage_amount
  match storage_deposit c env owner_id storage_amount_v with
  | .error e => .error e
  | .ok c0 =>
    let refund := env.attached_deposit - storage_amount_v
    let owner_paid_storage := (mapGet c0.storage_deposits owner_id).getD 0
    if owner_paid_storage < STORAGE_PER_SALE then .error .insufficientQuota else
    match buildConditions c0.ft_token_ids msg.sale_conditions with
    | .error e => .error e
    | .ok conditions =>
      let nft_contract_id := env.predecessor_account_id
      let contract_and_token_id := listingKey nft_contract_id series_name
      let c1 : Contract := { c0 with
        sales := mapInsert c0.sales contract_and_token_id
          { owner_id := owner_id, created_at := env.block_timestamp,
            approval_id := 0, nft_contract_id := nft_contract_id,
            token_id := series_name, conditions := conditions,
            is_series := some true, token_type := none, bids := none } }
      let by_owner_id := (mapGet c1.by_owner_id owner_id).getD []
      let owner_occupied_storage := by_owner_id.length * STORAGE_PER_SALE
      if owner_paid_storage ≤ owner_occupied_storage then .error .insufficientQuota else
      let c2 : Contract := { c1 with
        by_owner_id := mapInsert c1.by_owner_id owner_id
          (setInsert by_owner_id contract_and_token_id) }
      let by_nft_contract_id := (mapGet c2.by_nft_contract_id nft_contract_id).getD []
      let c3 : Contract := { c2 with
        by_nft_contract_id := mapInsert c2.by_nft_contract_id nft_contract_id
          (setInsert by_nft_contract_id contract_and_token_id) }
      let by_nft_token_type := (mapGet c3.by_nft_token_type series_name).getD []
      .ok ({ c3 with
        by_nft_token_type := mapInsert c3.by_nft_token_type series_name
          (setInsert by_nft_token_type contract_and_token_id) }, refund)

/-! ## Derived observations and invariants -/

/-- The lister's paid storage deposit (`storage_deposits.get(...).unwrap_or(0)`). -/
def depositOf (c : Contract) (o : AccountId) : Nat :=
  (mapGet c.storage_deposits o).getD 0

/-- The by-lister index set (`by_owner_id.get(...).unwrap_or(empty)`). -/
def ownerSet (c : Contract) (o : AccountId) : List String :=
  (mapGet c.by_owner_id o).getD []

/-- The count `by_owner_id.len()` used by the quota check. -/
def usedCount (c : Contract) (o : AccountId) : Nat := (ownerSet c o).length

/-- The by-source-collection index set. -/
def contractSet (c : Contract) (p : AccountId) : List String :=
  (mapGet c.by_nft_contract_id p).getD []

/-- The by-category index set. -/
def categorySet (c : Contract) (t : String) : List String :=
  (mapGet c.by_nft_token_type t).getD []

/-- The lister's quota-derived capacity: the paid storage deposit measured
in units of the per-sale storage cost. -/
def unitsOf (c : Contract) (o : AccountId) : Nat :=
  depositOf c o / STORAGE_PER_SALE

/-- The category key a stored listing corresponds to: the category name
(`token_id`) for a category listing, otherwise its optional category tag. -/
def saleCategory (sale : Sale) : Option String :=
  match sale.is_series with
  | some true => some sale.token_id
  | _ => sale.token_type

/-- An approval event, single-item or category. -/
inductive Approval where
  | nft (env : Env) (token_id : TokenId) (owner_id : AccountId)
      (approval_id : Nat) (msg : Option SaleArgs)
  | series (env : Env) (series_name : String) (owner_id : AccountId) (msg : SaleArgs)

/-- Dispatch an approval event to the matching handler (state part only). -/
def applyApproval (c : Contract) : Approval → Except MarketError Contract
  | .nft env t o a m => nft_on_approve c env t o a m
  | .series env s o m => (series_on_approve c env s o m).map Prod.fst

/-- The NEAR runtime's view of one invocation: on a panic the whole
receipt is rolled back, so the state component is the pre state. -/
def applyWithRollback (c : Contract) (a : Approval) : Contract × Option MarketError :=
  match applyApproval c a with
  | .ok c' => (c', none)
  | .error e => (c, some e)

/-- Run a sequence of approvals, requiring every one to succeed. -/
def runOk : Contract → List Approval → Option Contract
  | c, [] => some c
  | c, a :: rest =>
    match applyApproval c a with
    | .ok c' => runOk c' rest
    | .error _ => none

/-- Quota invariant of the spec (§8) for one lister: never more live
listings than quota-derived capacity. -/
def quotaInv (c : Contract) (o : AccountId) : Prop :=
  usedCount c o < unitsOf c o + 1

instance quotaInv_decidable (c : Contract) (o : AccountId) :
    Decidable (quotaInv c o) := by
  unfold quotaInv; infer_instance

/-- Modelled from the spec: the Quota Ledger (§2, §6) deals in whole
quota units, so every recorded deposit is a multiple of the per-sale
storage cost. -/
def unitsInv (c : Contract) : Prop :=
  ∀ p ∈ c.storage_deposits, p.2 % STORAGE_PER_SALE = 0

instance unitsInv_decidable (c : Contract) : Decidable (unitsInv c) := by
  unfold unitsInv; infer_instance

/-- Index symmetry, membership directions: every stored listing key is in
its lister's by-lister set, its collection's by-source-collection set,
and, when it has a category, that category's set. -/
def indexInv (c : Contract) : Prop :=
  ∀ k sale, mapGet c.sales k = some sale →
    k ∈ ownerSet c sale.owner_id ∧
    k ∈ contractSet c sale.nft_contract_id ∧
    ∀ tag ∈ saleCategory sale, k ∈ categorySet c tag

/-- Index symmetry exactly as the spec claims it (§8), with the
"if and only if" by-category direction: a listing key with no category is
a member of no by-category set. -/
def indexSym (c : Contract) : Prop :=
  ∀ e ∈ c.sales,
    e.1 ∈ ownerSet c e.2.owner_id ∧
    e.1 ∈ contractSet c e.2.nft_contract_id ∧
    match saleCategory e.2 with
    | some tag => e.1 ∈ categorySet c tag
    | none => ¬ ∃ p ∈ c.by_nft_token_type, e.1 ∈ p.2

/-- The last `sale_conditions` entry for a given currency, if any:
`some price` when the currency occurs, where `price` is the optional
price of its last occurrence. -/
def lastPriceFor (scs : List Price) (ft : AccountId) : Option (Option Nat) :=
  match scs with
  | [] => none
  | p :: rest =>
    match lastPriceFor rest ft with
    | some r => some r
    | none => if p.ft_token_id = ft then some p.price else none

/-- Placeholder listing used to read a sale out of an `Option`. -/
def dummySale : Sale :=
  { owner_id := "", created_at := 0, approval_id := 0, nft_contract_id := "",
    token_id := "", conditions := [], is_series := none, token_type := none,
    bids := none }

/-- The listing stored at key `k` after a successful run, or the
placeholder. -/
def saleAt (c : Contract) (k : String) : Sale := (mapGet c.sales k).getD dummySale

def exceptOk {ε α : Type} : Except ε α → Bool
  | .ok _ => true
  | .error _ => false

instance exceptDecEq {ε α : Type} [DecidableEq ε] [DecidableEq α] :
    DecidableEq (Except ε α) := fun x y =>
  match x, y with
  | .ok a, .ok b =>
    if h : a = b then .isTrue (by rw [h])
    else .isFalse (fun hh => h (by injection hh))
  | .error a, .error b =>
    if h : a = b then .isTrue (by rw [h])
    else .isFalse (fun hh => h (by injection hh))
  | .ok _, .error _ => .isFalse (fun hh => by injection hh)
  | .error _, .ok _ => .isFalse (fun hh => by injection hh)

/-- The listing record a successful `nft_on_approve` stores. -/
def nftSale (env : Env) (token_id : TokenId) (owner_id : AccountId)
    (approval_id : Nat) (args : SaleArgs) (conditions : List (AccountId × Nat)) :
    Sale :=
  { owner_id := owner_id, created_at := env.block_timestamp,
    approval_id := approval_id, nft_contract_id := env.predecessor_account_id,
    token_id := token_id, conditions := conditions, is_series := none,
    token_type := args.token_type, bids := none }

/-- The listing record a successful `series_on_approve` stores. -/
def seriesSale (env : Env) (series_name : String) (owner_id : AccountId)
    (conditions : List (AccountId × Nat)) : Sale :=
  { owner_id := owner_id, created_at := env.block_timestamp,
    approval_id := 0, nft_contract_id := env.predecessor_account_id,
    token_id := series_name, conditions := conditions, is_series := some true,
    token_type := none, bids := none }

/-- The post state of a successful `nft_on_approve`, written as one
structure update (provably the state the handler returns). -/
def nftPost (c : Contract) (env : Env) (token_id : TokenId) (owner_id : AccountId)
    (approval_id : Nat) (args : SaleArgs) (conditions : List (AccountId × Nat)) :
    Contract :=
  let p := env.predecessor_account_id
  let key := listingKey p token_id
  { c with
    sales := mapInsert c.sales key (nftSale env token_id owner_id approval_id args conditions),
    by_owner_id := mapInsert c.by_owner_id owner_id
      (setInsert (ownerSet c owner_id) key),
    by_nft_contract_id := mapInsert c.by_nft_contract_id p
      (setInsert (contractSet c p) key),
    by_nft_token_type :=
      match args.token_type with
      | none => c.by_nft_token_type
      | some tt => mapInsert c.by_nft_token_type tt
          (setInsert (categorySet c tt) key) }

/-- The state after the quota purchase step of `series_on_approve`. -/
def creditDeposit (c : Contract) (o : AccountId) (amount : Nat) : Contract :=
  { c with storage_deposits := mapInsert c.storage_deposits o (depositOf c o + amount) }

/-- The post state of a successful `series_on_approve` (state component),
starting from the post-purchase state `c0`. -/
def seriesPost (c0 : Contract) (env : Env) (series_name : String)
    (owner_id : AccountId) (conditions : List (AccountId × Nat)) : Contract :=
  let p := env.predecessor_account_id
  let key := listingKey p series_name
  { c0 with
    sales := mapInsert c0.sales key (seriesSale env series_name owner_id conditions),
    by_owner_id := mapInsert c0.by_owner_id owner_id
      (setInsert (ownerSet c0 owner_id) key),
    by_nft_contract_id := mapInsert c0.by_nft_contract_id p
      (setInsert (contractSet c0 p) key),
    by_nft_token_type := mapInsert c0.by_nft_token_type series_name
      (setInsert (categorySet c0 series_name) key) }

/-! ## Map and set lemmas -/

section MapLemmas

variable {α β : Type} [DecidableEq α]

@[simp] theorem mapKeys_nil : mapKeys ([] : List (α × β)) = [] := rfl

@[simp] theorem mapKeys_cons (k₀ : α) (v₀ : β) (tl : List (α × β)) :
    mapKeys ((k₀, v₀) :: tl) = k₀ :: mapKeys tl := rfl

@[simp] theorem mapGet_mapInsert_self (m : List (α × β)) (k : α) (v : β) :
    mapGet (mapInsert m k v) k = some v := by
  induction m with
  | nil => simp [mapInsert, mapGet]
  | cons hd tl ih =>
    obtain ⟨k', v'⟩ := hd
    by_cases h : k' = k <;> simp [mapInsert, mapGet, h, ih]

theorem mapGet_mapInsert_ne (m : List (α × β)) {k k' : α} (v : β) (h : k' ≠ k) :
    mapGet (mapInsert m k v) k' = mapGet m k' := by
  have h' : k ≠ k' := Ne.symm h
  induction m with
  | nil => simp [mapInsert, mapGet, h']
  | cons hd tl ih =>
    obtain ⟨k₀, v₀⟩ := hd
    by_cases h0 : k₀ = k
    · subst h0
      simp [mapInsert, mapGet, h']
    · simp [mapInsert, mapGet, h0, ih]

theorem mapGet_mem (m : List (α × β)) {k : α} {v : β} (h : mapGet m k = some v) :
    (k, v) ∈ m := by
  induction m with
  | nil => simp [mapGet] at h
  | cons hd tl ih =>
    obtain ⟨k₀, v₀⟩ := hd
    by_cases h0 : k₀ = k
    · subst h0
      rw [mapGet, if_pos rfl] at h
      injection h with hv
      subst hv
      exact List.mem_cons_self _ _
    · rw [mapGet, if_neg h0] at h
      exact List.mem_cons_of_mem _ (ih h)

theorem mapGet_mem_keys (m : List (α × β)) {k : α} {v : β}
    (h : mapGet m k = some v) : k ∈ mapKeys m := by
  unfold mapKeys
  exact List.mem_map.mpr ⟨(k, v), mapGet_mem m h, rfl⟩

theorem mapKeys_mapInsert_of_mem (m : List (α × β)) {k : α} (v : β)
    (h : k ∈ mapKeys m) : mapKeys (mapInsert m k v) = mapKeys m := by
  induction m with
  | nil => simp at h
  | cons hd tl ih =>
    obtain ⟨k₀, v₀⟩ := hd
    by_cases h0 : k₀ = k
    · subst h0
      simp [mapInsert]
    · simp only [mapKeys_cons, List.mem_cons] at h
      rcases h with h | h
      · exact absurd h.symm h0
      · simp [mapInsert, h0, ih h]

theorem mapKeys_mapInsert_of_not_mem (m : List (α × β)) {k : α} (v : β)
    (h : ¬ k ∈ mapKeys m) : mapKeys (mapInsert m k v) = mapKeys m ++ [k] := by
  induction m with
  | nil => simp [mapInsert]
  | cons hd tl ih =>
    obtain ⟨k₀, v₀⟩ := hd
    simp only [mapKeys_cons, List.mem_cons, not_or] at h
    obtain ⟨h1, h2⟩ := h
    have h1' : k₀ ≠ k := fun hh => h1 hh.symm
    simp [mapInsert, h1', ih h2]

theorem nodup_mapKeys_mapInsert (m : List (α × β)) (k : α) (v : β)
    (h : (mapKeys m).Nodup) : (mapKeys (mapInsert m k v)).Nodup := by
  by_cases hm : k ∈ mapKeys m
  · rwa [mapKeys_mapInsert_of_mem m v hm]
  · rw [mapKeys_mapInsert_of_not_mem m v hm]
    simpa [List.nodup_append] using ⟨h, fun hk => hm hk⟩

theorem mem_setInsert_iff (s : List α) (x y : α) :
    y ∈ setInsert s x ↔ y = x ∨ y ∈ s := by
  unfold setInsert
  by_cases h : x ∈ s
  · simp only [if_pos h]
    constructor
    · exact Or.inr
    · rintro (rfl | hy) <;> [exact h; exact hy]
  · simp [if_neg h, List.mem_append, or_comm]

theorem mem_setInsert_self (s : List α) (x : α) : x ∈ setInsert s x := by
  rw [mem_setInsert_iff]; exact Or.inl rfl

theorem mem_setInsert_of_mem (s : List α) (x : α) {y : α} (h : y ∈ s) :
    y ∈ setInsert s x := by
  rw [mem_setInsert_iff]; exact Or.inr h

theorem setInsert_of_mem (s : List α) {x : α} (h : x ∈ s) : setInsert s x = s := by
  simp [setInsert, h]

theorem length_setInsert_le (s : List α) (x : α) :
    (setInsert s x).length ≤ s.length + 1 := by
  unfold setInsert
  by_cases h : x ∈ s <;> simp [h]

end MapLemmas

/-! ## Unfolding the handlers into check-then-post form -/

theorem nft_on_approve_unfold (c : Contract) (env : Env) (t : TokenId)
    (o : AccountId) (a : Nat) (m : Option SaleArgs) :
    nft_on_approve c env t o a m =
      if depositOf c o < STORAGE_PER_SALE then .error .insufficientQuota else
      match m with
      | none => .error .malformedRequest
      | some args =>
        match buildConditions c.ft_token_ids args.sale_conditions with
        | .error e => .error e
        | .ok conditions =>
          if depositOf c o ≤ usedCount c o * STORAGE_PER_SALE then
            .error .insufficientQuota
          else
            match args.token_type with
            | none => .ok (nftPost c env t o a args conditions)
            | some tt =>
              if strContains t tt then .ok (nftPost c env t o a args conditions)
              else .error .invalidCategoryTag := by
  unfold nft_on_approve nftPost nftSale depositOf usedCount ownerSet contractSet categorySet
  cases m with
  | none => rfl
  | some args =>
    simp only []
    split
    · rfl
    · cases hb : buildConditions c.ft_token_ids args.sale_conditions with
      | error e => rfl
      | ok conditions =>
        simp only []
        split
        · rfl
        · cases args.token_type with
          | none => rfl
          | some tt =>
            by_cases hs : strContains t tt <;> simp [hs]

theorem series_on_approve_unfold (c : Contract) (env : Env) (s : String)
    (o : AccountId) (msg : SaleArgs) :
    series_on_approve c env s o msg =
      if env.attached_deposit < storage_amount then .error .quotaPurchaseFailed else
      match buildConditions c.ft_token_ids msg.sale_conditions with
      | .error e => .error e
      | .ok conditions =>
        if depositOf c o + storage_amount ≤ usedCount c o * STORAGE_PER_SALE then
          .error .insufficientQuota
        else
          .ok (seriesPost (creditDeposit c o storage_amount) env s o conditions,
               env.attached_deposit - storage_amount) := by
  unfold series_on_approve storage_deposit seriesPost seriesSale creditDeposit depositOf
    usedCount ownerSet contractSet categorySet
  by_cases hatt : env.attached_deposit < storage_amount
  · simp [hatt]
  · simp only [if_neg hatt]
    simp only [mapGet_mapInsert_self, Option.getD_some]
    rw [if_neg (show ¬ (mapGet c.storage_deposits o).getD 0 + storage_amount <
        STORAGE_PER_SALE by unfold storage_amount; omega)]

/-! ## Success characterizations -/

theorem nft_ok_elim {c : Contract} {env : Env} {t : TokenId} {o : AccountId}
    {a : Nat} {m : Option SaleArgs} {c' : Contract}
    (h : nft_on_approve c env t o a m = .ok c') :
    ∃ args conditions,
      m = some args ∧
      STORAGE_PER_SALE ≤ depositOf c o ∧
      buildConditions c.ft_token_ids args.sale_conditions = .ok conditions ∧
      usedCount c o * STORAGE_PER_SALE < depositOf c o ∧
      (∀ tt ∈ args.token_type, strContains t tt = true) ∧
      c' = nftPost c env t o a args conditions := by
  rw [nft_on_approve_unfold] at h
  split at h
  · exact absurd h (by simp)
  rename_i h1
  split at h
  · exact absurd h (by simp)
  rename_i args
  split at h
  · exact absurd h (by simp)
  rename_i conditions hb
  split at h
  · exact absurd h (by simp)
  rename_i h2
  split at h
  · rename_i htt
    injection h with h'
    refine ⟨args, conditions, rfl, Nat.le_of_not_lt h1, hb, Nat.lt_of_not_le h2,
      ?_, h'.symm⟩
    intro tt hmem
    rw [htt] at hmem
    simp at hmem
  · rename_i tt0 htt
    split at h
    · rename_i hs
      injection h with h'
      refine ⟨args, conditions, rfl, Nat.le_of_not_lt h1, hb, Nat.lt_of_not_le h2,
        ?_, h'.symm⟩
      intro tt hmem
      rw [htt] at hmem
      simp only [Option.mem_def, Option.some.injEq] at hmem
      subst hmem
      exact hs
    · exact absurd h (by simp)

theorem nft_ok_intro {c : Contract} {env : Env} {t : TokenId} {o : AccountId}
    {a : Nat} {args : SaleArgs} {conditions : List (AccountId × Nat)}
    (h1 : STORAGE_PER_SALE ≤ depositOf c o)
    (hb : buildConditions c.ft_token_ids args.sale_conditions = .ok conditions)
    (h2 : usedCount c o * STORAGE_PER_SALE < depositOf c o)
    (hs : ∀ tt ∈ args.token_type, strContains t tt = true) :
    nft_on_approve c env t o a (some args) =
      .ok (nftPost c env t o a args conditions) := by
  rw [nft_on_approve_unfold]
  rw [if_neg (Nat.not_lt.mpr h1)]
  simp only [hb]
  rw [if_neg (Nat.not_le.mpr h2)]
  cases htt : args.token_type with
  | none => rfl
  | some tt =>
    show (if strContains t tt = true then
        (Except.ok (nftPost c env t o a args conditions) :
          Except MarketError Contract)
      else Except.error MarketError.invalidCategoryTag) =
      Except.ok (nftPost c env t o a args conditions)
    rw [if_pos (hs tt (by rw [htt]; rfl))]

theorem series_ok_elim {c : Contract} {env : Env} {s : String} {o : AccountId}
    {msg : SaleArgs} {c' : Contract} {r : Nat}
    (h : series_on_approve c env s o msg = .ok (c', r)) :
    storage_amount ≤ env.attached_deposit ∧
    ∃ conditions,
      buildConditions c.ft_token_ids msg.sale_conditions = .ok conditions ∧
      usedCount c o * STORAGE_PER_SALE < depositOf c o + storage_amount ∧
      r = env.attached_deposit - storage_amount ∧
      c' = seriesPost (creditDeposit c o storage_amount) env s o conditions := by
  rw [series_on_approve_unfold] at h
  split at h
  · exact absurd h (by simp)
  rename_i hatt
  split at h
  · exact absurd h (by simp)
  rename_i conditions hb
  split at h
  · exact absurd h (by simp)
  rename_i h2
  injection h with h'
  injection h' with ha hr
  exact ⟨Nat.le_of_not_lt hatt, conditions, hb, Nat.lt_of_not_le h2,
    hr.symm, ha.symm⟩

theorem series_ok_intro {c : Contract} {env : Env} {s : String} {o : AccountId}
    {msg : SaleArgs} {conditions : List (AccountId × Nat)}
    (hatt : storage_amount ≤ env.attached_deposit)
    (hb : buildConditions c.ft_token_ids msg.sale_conditions = .ok conditions)
    (h2 : usedCount c o * STORAGE_PER_SALE < depositOf c o + storage_amount) :
    series_on_approve c env s o msg =
      .ok (seriesPost (creditDeposit c o storage_amount) env s o conditions,
        env.attached_deposit - storage_amount) := by
  rw [series_on_approve_unfold]
  rw [if_neg (Nat.not_lt.mpr hatt)]
  simp only [hb]
  rw [if_neg (Nat.not_le.mpr h2)]

/-! ## Observations of the post states -/

theorem mapGetD_mapInsert {α β : Type} [DecidableEq α] [Inhabited β]
    (m : List (α × β)) (k : α) (x : β) (L : α) :
    (mapGet (mapInsert m k x) L).getD default =
      if L = k then x else (mapGet m L).getD default := by
  by_cases h : L = k
  · subst h; simp
  · simp [mapGet_mapInsert_ne _ _ h, h]

section PostObs

variable (c : Contract) (env : Env) (t : TokenId) (o : AccountId) (a : Nat)
  (args : SaleArgs) (conds : List (AccountId × Nat))

theorem depositOf_nftPost (L : AccountId) :
    depositOf (nftPost c env t o a args conds) L = depositOf c L := rfl

theorem ft_nftPost : (nftPost c env t o a args conds).ft_token_ids = c.ft_token_ids := rfl

theorem ownerSet_nftPost (L : AccountId) :
    ownerSet (nftPost c env t o a args conds) L =
      if L = o then
        setInsert (ownerSet c o) (listingKey env.predecessor_account_id t)
      else ownerSet c L := by
  have := mapGetD_mapInsert c.by_owner_id o
    (setInsert (ownerSet c o) (listingKey env.predecessor_account_id t)) L
  simpa [ownerSet, nftPost] using this

theorem contractSet_nftPost (L : AccountId) :
    contractSet (nftPost c env t o a args conds) L =
      if L = env.predecessor_account_id then
        setInsert (contractSet c env.predecessor_account_id)
          (listingKey env.predecessor_account_id t)
      else contractSet c L := by
  have := mapGetD_mapInsert c.by_nft_contract_id env.predecessor_account_id
    (setInsert (contractSet c env.predecessor_account_id)
      (listingKey env.predecessor_account_id t)) L
  simpa [contractSet, nftPost] using this

theorem categorySet_nftPost (T : String) :
    categorySet (nftPost c env t o a args conds) T =
      match args.token_type with
      | none => categorySet c T
      | some tt =>
        if T = tt then
          setInsert (categorySet c tt) (listingKey env.predecessor_account_id t)
        else categorySet c T := by
  cases htt : args.token_type with
  | none => simp [categorySet, nftPost, htt]
  | some tt =>
    have := mapGetD_mapInsert c.by_nft_token_type tt
      (setInsert (categorySet c tt) (listingKey env.predecessor_account_id t)) T
    simpa [categorySet, nftPost, htt] using this

theorem sales_nftPost (k : String) :
    mapGet (nftPost c env t o a args conds).sales k =
      if k = listingKey env.predecessor_account_id t then
        some (nftSale env t o a args conds)
      else mapGet c.sales k := by
  by_cases h : k = listingKey env.predecessor_account_id t
  · subst h; simp [nftPost]
  · simp [nftPost, mapGet_mapInsert_ne _ _ h, h]

end PostObs

section SeriesObs

variable (c : Contract) (env : Env) (s : String) (o : AccountId)
  (conds : List (AccountId × Nat))

theorem depositOf_creditDeposit (amt : Nat) (L : AccountId) :
    depositOf (creditDeposit c o amt) L =
      if L = o then depositOf c o + amt else depositOf c L := by
  have := mapGetD_mapInsert c.storage_deposits o (depositOf c o + amt) L
  simpa [depositOf, creditDeposit] using this

theorem depositOf_seriesPost (c0 : Contract) (L : AccountId) :
    depositOf (seriesPost c0 env s o conds) L = depositOf c0 L := rfl

theorem ownerSet_seriesPost (c0 : Contract) (L : AccountId) :
    ownerSet (seriesPost c0 env s o conds) L =
      if L = o then
        setInsert (ownerSet c0 o) (listingKey env.predecessor_account_id s)
      else ownerSet c0 L := by
  have := mapGetD_mapInsert c0.by_owner_id o
    (setInsert (ownerSet c0 o) (listingKey env.predecessor_account_id s)) L
  simpa [ownerSet, seriesPost] using this

theorem contractSet_seriesPost (c0 : Contract) (L : AccountId) :
    contractSet (seriesPost c0 env s o conds) L =
      if L = env.predecessor_account_id then
        setInsert (contractSet c0 env.predecessor_account_id)
          (listingKey env.predecessor_account_id s)
      else contractSet c0 L := by
  have := mapGetD_mapInsert c0.by_nft_contract_id env.predecessor_account_id
    (setInsert (contractSet c0 env.predecessor_account_id)
      (listingKey env.predecessor_account_id s)) L
  simpa [contractSet, seriesPost] using this

theorem categorySet_seriesPost (c0 : Contract) (T : String) :
    categorySet (seriesPost c0 env s o conds) T =
      if T = s then
        setInsert (categorySet c0 s) (listingKey env.predecessor_account_id s)
      else categorySet c0 T := by
  have := mapGetD_mapInsert c0.by_nft_token_type s
    (setInsert (categorySet c0 s) (listingKey env.predecessor_account_id s)) T
  simpa [categorySet, seriesPost] using this

theorem sales_seriesPost (c0 : Contract) (k : String) :
    mapGet (seriesPost c0 env s o conds).sales k =
      if k = listingKey env.predecessor_account_id s then
        some (seriesSale env s o conds)
      else mapGet c0.sales k := by
  by_cases h : k = listingKey env.predecessor_account_id s
  · subst h; simp [seriesPost]
  · simp [seriesPost, mapGet_mapInsert_ne _ _ h, h]

theorem ownerSet_creditDeposit (amt : Nat) (L : AccountId) :
    ownerSet (creditDeposit c o amt) L = ownerSet c L := rfl

theorem contractSet_creditDeposit (amt : Nat) (L : AccountId) :
    contractSet (creditDeposit c o amt) L = contractSet c L := rfl

theorem categorySet_creditDeposit (amt : Nat) (T : String) :
    categorySet (creditDeposit c o amt) T = categorySet c T := rfl

theorem sales_creditDeposit (amt : Nat) (k : String) :
    mapGet (creditDeposit c o amt).sales k = mapGet c.sales k := rfl

theorem ft_creditDeposit (amt : Nat) :
    (creditDeposit c o amt).ft_token_ids = c.ft_token_ids := rfl

end SeriesObs

/-! ## Quota arithmetic -/

theorem STORAGE_PER_SALE_pos : 0 < STORAGE_PER_SALE := by
  unfold STORAGE_PER_SALE; omega

theorem unitsInv_depositOf {c : Contract} (h : unitsInv c) (o : AccountId) :
    depositOf c o % STORAGE_PER_SALE = 0 := by
  unfold depositOf
  cases hm : mapGet c.storage_deposits o with
  | none => simp [Nat.zero_mod]
  | some v =>
    have := h (o, v) (mapGet_mem _ hm)
    simpa using this

theorem used_lt_units {paid used : Nat} (hmul : paid % STORAGE_PER_SALE = 0)
    (h : used * STORAGE_PER_SALE < paid) : used < paid / STORAGE_PER_SALE := by
  rcases Nat.dvd_of_mod_eq_zero hmul with ⟨q, rfl⟩
  rw [Nat.mul_div_cancel_left q STORAGE_PER_SALE_pos]
  rw [Nat.mul_comm STORAGE_PER_SALE q] at h
  exact Nat.lt_of_mul_lt_mul_right h

/-! ## Claim C1: quota invariant -/

/-- C1: after every successful single-item or category approval, every
lister's by-lister index holds strictly fewer listing keys than the
lister's quota-derived capacity plus one (capacity = paid storage deposit
in units of the per-sale storage cost).  The Quota Ledger is spec-modelled
as dealing in whole quota units (`unitsInv`). -/
theorem quota_invariant_after_approval (c c' : Contract) (act : Approval)
    (hmul : unitsInv c) (hinv : ∀ L, quotaInv c L)
    (h : applyApproval c act = .ok c') : ∀ L, quotaInv c' L := by
  cases act with
  | nft env t o a m =>
    simp only [applyApproval] at h
    obtain ⟨args, conds, -, -, -, hq, -, rfl⟩ := nft_ok_elim h
    intro L
    unfold quotaInv unitsOf usedCount
    rw [depositOf_nftPost, ownerSet_nftPost]
    by_cases hL : L = o
    · subst hL
      rw [if_pos rfl]
      have h1 := length_setInsert_le (ownerSet c L) (listingKey env.predecessor_account_id t)
      have h2 := used_lt_units (unitsInv_depositOf hmul L) hq
      unfold unitsOf usedCount at h2
      omega
    · rw [if_neg hL]
      exact hinv L
  | series env s o m =>
    simp only [applyApproval] at h
    cases hs : series_on_approve c env s o m with
    | error e => rw [hs] at h; simp [Except.map] at h
    | ok pr =>
      obtain ⟨c'', r⟩ := pr
      rw [hs] at h
      simp only [Except.map] at h
      injection h with h
      subst h
      obtain ⟨hatt, conds, hb, hq, hr, rfl⟩ := series_ok_elim hs
      intro L
      unfold quotaInv unitsOf usedCount
      rw [depositOf_seriesPost, depositOf_creditDeposit, ownerSet_seriesPost,
        ownerSet_creditDeposit]
      by_cases hL : L = o
      · subst hL
        rw [if_pos rfl, if_pos rfl]
        have h1 := length_setInsert_le (ownerSet c L) (listingKey env.predecessor_account_id s)
        have hmul' : (depositOf c L + storage_amount) % STORAGE_PER_SALE = 0 := by
          unfold storage_amount
          rw [Nat.add_mod_right]
          exact unitsInv_depositOf hmul L
        have h2 := used_lt_units hmul' (by unfold storage_amount at *; exact hq)
        unfold usedCount at h2
        omega
      · rw [if_neg hL, if_neg hL]
        exact hinv L

/-! ## Lemmas about the condition-building loop -/

theorem buildConditionsAux_ok (reg : List AccountId) (acc : List (AccountId × Nat))
    (scs : List Price) (hsup : ∀ p ∈ scs, p.ft_token_id ∈ reg) :
    ∃ m, buildConditionsAux reg acc scs = .ok m := by
  induction scs generalizing acc with
  | nil => exact ⟨acc, rfl⟩
  | cons p rest ih =>
    unfold buildConditionsAux
    rw [if_pos (hsup p (List.mem_cons_self _ _))]
    exact ih _ fun q hq => hsup q (List.mem_cons_of_mem _ hq)

theorem buildConditionsAux_lookup (reg : List AccountId)
    (scs : List Price) (acc m : List (AccountId × Nat))
    (h : buildConditionsAux reg acc scs = .ok m) (ft : AccountId) :
    mapGet m ft =
      match lastPriceFor scs ft with
      | some pr => some (pr.getD 0)
      | none => mapGet acc ft := by
  induction scs generalizing acc with
  | nil =>
    unfold buildConditionsAux at h
    injection h with h
    subst h
    rfl
  | cons p rest ih =>
    unfold buildConditionsAux at h
    by_cases hr : p.ft_token_id ∈ reg
    · rw [if_pos hr] at h
      rw [ih _ h]
      cases hrest : lastPriceFor rest ft with
      | some pr => simp [lastPriceFor, hrest]
      | none =>
        simp only [lastPriceFor, hrest]
        by_cases hft : p.ft_token_id = ft
        · subst hft
          simp
        · simp only [if_neg hft]
          exact mapGet_mapInsert_ne _ _ (Ne.symm hft)
    · rw [if_neg hr] at h
      exact absurd h (by simp)

theorem buildConditionsAux_keys_nodup (reg : List AccountId)
    (scs : List Price) (acc m : List (AccountId × Nat))
    (h : buildConditionsAux reg acc scs = .ok m)
    (hacc : (mapKeys acc).Nodup) : (mapKeys m).Nodup := by
  induction scs generalizing acc with
  | nil =>
    unfold buildConditionsAux at h
    injection h with h
    subst h
    exact hacc
  | cons p rest ih =>
    unfold buildConditionsAux at h
    by_cases hr : p.ft_token_id ∈ reg
    · rw [if_pos hr] at h
      exact ih _ h (nodup_mapKeys_mapInsert _ _ _ hacc)
    · rw [if_neg hr] at h
      exact absurd h (by simp)

theorem exceptOk_eq_true {ε α : Type} {x : Except ε α} (h : exceptOk x = true) :
    ∃ v, x = .ok v := by
  cases x with
  | ok v => exact ⟨v, rfl⟩
  | error e => simp [exceptOk] at h

/-! ## Index membership: step preservation -/

section SaleObs

variable (env : Env) (t : TokenId) (s : String) (o : AccountId) (a : Nat)
  (args : SaleArgs) (conds : List (AccountId × Nat))

@[simp] theorem nftSale_owner : (nftSale env t o a args conds).owner_id = o := rfl

@[simp] theorem nftSale_contract :
    (nftSale env t o a args conds).nft_contract_id = env.predecessor_account_id := rfl

@[simp] theorem nftSale_conditions : (nftSale env t o a args conds).conditions = conds := rfl

theorem saleCategory_nftSale : saleCategory (nftSale env t o a args conds) = args.token_type := rfl

@[simp] theorem seriesSale_owner : (seriesSale env s o conds).owner_id = o := rfl

@[simp] theorem seriesSale_contract :
    (seriesSale env s o conds).nft_contract_id = env.predecessor_account_id := rfl

@[simp] theorem seriesSale_conditions : (seriesSale env s o conds).conditions = conds := rfl

theorem saleCategory_seriesSale : saleCategory (seriesSale env s o conds) = some s := rfl

end SaleObs

section Mono

variable (c : Contract) (env : Env) (t : TokenId) (s : String) (o : AccountId)
  (a : Nat) (args : SaleArgs) (conds : List (AccountId × Nat))

theorem ownerSet_nftPost_mono (L : AccountId) :
    ownerSet c L ⊆ ownerSet (nftPost c env t o a args conds) L := by
  intro x hx
  rw [ownerSet_nftPost]
  split
  · rename_i hL
    rw [hL] at hx
    exact mem_setInsert_of_mem _ _ hx
  · exact hx

theorem contractSet_nftPost_mono (L : AccountId) :
    contractSet c L ⊆ contractSet (nftPost c env t o a args conds) L := by
  intro x hx
  rw [contractSet_nftPost]
  split
  · rename_i hL
    rw [hL] at hx
    exact mem_setInsert_of_mem _ _ hx
  · exact hx

theorem categorySet_nftPost_mono (T : String) :
    categorySet c T ⊆ categorySet (nftPost c env t o a args conds) T := by
  intro x hx
  rw [categorySet_nftPost]
  split
  · exact hx
  · split
    · rename_i hT
      rw [hT] at hx
      exact mem_setInsert_of_mem _ _ hx
    · exact hx

theorem categorySet_nftPost_self {tt : String} (htt : args.token_type = some tt) :
    categorySet (nftPost c env t o a args conds) tt =
      setInsert (categorySet c tt) (listingKey env.predecessor_account_id t) := by
  rw [categorySet_nftPost, htt]
  simp

theorem ownerSet_seriesPost_mono (c0 : Contract) (L : AccountId) :
    ownerSet c0 L ⊆ ownerSet (seriesPost c0 env s o conds) L := by
  intro x hx
  rw [ownerSet_seriesPost]
  split
  · rename_i hL
    rw [hL] at hx
    exact mem_setInsert_of_mem _ _ hx
  · exact hx

theorem contractSet_seriesPost_mono (c0 : Contract) (L : AccountId) :
    contractSet c0 L ⊆ contractSet (seriesPost c0 env s o conds) L := by
  intro x hx
  rw [contractSet_seriesPost]
  split
  · rename_i hL
    rw [hL] at hx
    exact mem_setInsert_of_mem _ _ hx
  · exact hx

theorem categorySet_seriesPost_mono (c0 : Contract) (T : String) :
    categorySet c0 T ⊆ categorySet (seriesPost c0 env s o conds) T := by
  intro x hx
  rw [categorySet_seriesPost]
  split
  · rename_i hT
    rw [hT] at hx
    exact mem_setInsert_of_mem _ _ hx
  · exact hx

end Mono

theorem indexInv_step {c c' : Contract} {act : Approval}
    (hinv : indexInv c) (h : applyApproval c act = .ok c') : indexInv c' := by
  cases act with
  | nft env t o a m =>
    simp only [applyApproval] at h
    obtain ⟨args, conds, -, -, -, -, -, rfl⟩ := nft_ok_elim h
    intro k sale hk
    rw [sales_nftPost] at hk
    by_cases hkey : k = listingKey env.predecessor_account_id t
    · rw [if_pos hkey] at hk
      injection hk with hk
      subst hk
      subst hkey
      refine ⟨?_, ?_, ?_⟩
      · rw [nftSale_owner, ownerSet_nftPost, if_pos rfl]
        exact mem_setInsert_self _ _
      · rw [nftSale_contract, contractSet_nftPost, if_pos rfl]
        exact mem_setInsert_self _ _
      · intro tag htag
        rw [saleCategory_nftSale, Option.mem_def] at htag
        rw [categorySet_nftPost_self c env t o a args conds htag]
        exact mem_setInsert_self _ _
    · rw [if_neg hkey] at hk
      obtain ⟨ho, hc2, hcat⟩ := hinv k sale hk
      exact ⟨ownerSet_nftPost_mono c env t o a args conds _ ho,
        contractSet_nftPost_mono c env t o a args conds _ hc2,
        fun tag htag => categorySet_nftPost_mono c env t o a args conds _ (hcat tag htag)⟩
  | series env s o m =>
    simp only [applyApproval] at h
    cases hs : series_on_approve c env s o m with
    | error e => rw [hs] at h; simp [Except.map] at h
    | ok pr =>
      obtain ⟨c'', r⟩ := pr
      rw [hs] at h
      simp only [Except.map] at h
      injection h with h
      subst h
      obtain ⟨hatt, conds, hb, hq, hr, rfl⟩ := series_ok_elim hs
      intro k sale hk
      rw [sales_seriesPost] at hk
      by_cases hkey : k = listingKey env.predecessor_account_id s
      · rw [if_pos hkey] at hk
        injection hk with hk
        subst hk
        subst hkey
        refine ⟨?_, ?_, ?_⟩
        · rw [seriesSale_owner, ownerSet_seriesPost, if_pos rfl]
          exact mem_setInsert_self _ _
        · rw [seriesSale_contract, contractSet_seriesPost, if_pos rfl]
          exact mem_setInsert_self _ _
        · intro tag htag
          rw [saleCategory_seriesSale, Option.mem_def] at htag
          injection htag with htag
          subst htag
          rw [categorySet_seriesPost, if_pos rfl]
          exact mem_setInsert_self _ _
      · rw [if_neg hkey] at hk
        obtain ⟨ho, hc2, hcat⟩ := hinv k sale hk
        exact ⟨ownerSet_seriesPost_mono env s o conds _ _ ho,
          contractSet_seriesPost_mono env s o conds _ _ hc2,
          fun tag htag => categorySet_seriesPost_mono env s o conds _ _ (hcat tag htag)⟩

/-! ## Concrete example data -/

def exEnv : Env :=
  { predecessor_account_id := "nftc", block_timestamp := 7, attached_deposit := 0 }

def exEnvPay : Env :=
  { predecessor_account_id := "nftc", block_timestamp := 9,
    attached_deposit := STORAGE_PER_SALE + 5 }

def exArgsEmpty : SaleArgs := { sale_conditions := [], token_type := none }

def exC0 : Contract :=
  { storage_deposits := [("alice", STORAGE_PER_SALE)], ft_token_ids := ["ft"],
    sales := [], by_owner_id := [], by_nft_contract_id := [],
    by_nft_token_type := [] }

def exC1After : Contract :=
  { storage_deposits := [("alice", STORAGE_PER_SALE)], ft_token_ids := ["ft"],
    sales := [("nftc.tok", nftSale exEnv "tok" "alice" 1 exArgsEmpty [])],
    by_owner_id := [("alice", ["nftc.tok"])],
    by_nft_contract_id := [("nftc", ["nftc.tok"])],
    by_nft_token_type := [] }

/-- Witness for the C1 theorem at a concrete single-item approval. -/
theorem quota_invariant_after_approval_witness : quotaInv exC1After "alice" :=
  quota_invariant_after_approval exC0 exC1After
    (.nft exEnv "tok" "alice" 1 (some exArgsEmpty))
    (by decide)
    (by
      intro L
      unfold quotaInv usedCount ownerSet
      simp [exC0, mapGet])
    (by decide) "alice"

/-! ## Claim C2: atomicity on precondition failure -/

/-- C2: whenever either approval operation fails (any precondition
violation), the Listing Store and all three indices — and the quota
balances — observed after the invocation equal those before it.  The
rollback-on-panic of the host runtime is encoded by
`applyWithRollback`. -/
theorem atomic_on_precondition_failure (c : Contract) (act : Approval)
    (e : MarketError) (h : (applyWithRollback c act).2 = some e) :
    (applyWithRollback c act).1.sales = c.sales ∧
    (applyWithRollback c act).1.by_owner_id = c.by_owner_id ∧
    (applyWithRollback c act).1.by_nft_contract_id = c.by_nft_contract_id ∧
    (applyWithRollback c act).1.by_nft_token_type = c.by_nft_token_type ∧
    (applyWithRollback c act).1.storage_deposits = c.storage_deposits := by
  unfold applyWithRollback at h ⊢
  cases happ : applyApproval c act with
  | ok c1 => rw [happ] at h; simp at h
  | error e1 => exact ⟨rfl, rfl, rfl, rfl, rfl⟩

/-- Witness for the C2 theorem: a malformed single-item approval by a
lister with no storage leaves every store unchanged. -/
theorem atomic_on_precondition_failure_witness :
    (applyWithRollback exC0 (.nft exEnv "tok" "bob" 1 none)).1.sales = exC0.sales ∧
    (applyWithRollback exC0 (.nft exEnv "tok" "bob" 1 none)).1.by_owner_id = exC0.by_owner_id ∧
    (applyWithRollback exC0 (.nft exEnv "tok" "bob" 1 none)).1.by_nft_contract_id = exC0.by_nft_contract_id ∧
    (applyWithRollback exC0 (.nft exEnv "tok" "bob" 1 none)).1.by_nft_token_type = exC0.by_nft_token_type ∧
    (applyWithRollback exC0 (.nft exEnv "tok" "bob" 1 none)).1.storage_deposits = exC0.storage_deposits :=
  atomic_on_precondition_failure exC0 (.nft exEnv "tok" "bob" 1 none)
    .insufficientQuota (by decide)

/-! ## Claim C4: index symmetry -/

/-- C4 (amended): starting from a state whose stored listings are all
indexed, after any sequence of successful approvals every stored listing
key is a member of its lister's by-lister set, its collection's
by-source-collection set, and — when it has a category tag or is a
category listing — the corresponding by-category set. -/
theorem index_membership_invariant (c0 : Contract) (acts : List Approval)
    (c : Contract) (hinv : indexInv c0) (h : runOk c0 acts = some c) :
    indexInv c := by
  induction acts generalizing c0 with
  | nil =>
    unfold runOk at h
    injection h with h
    subst h
    exact hinv
  | cons a rest ih =>
    unfold runOk at h
    cases happ : applyApproval c0 a with
    | error e => rw [happ] at h; simp at h
    | ok c1 => rw [happ] at h; exact ih c1 (indexInv_step hinv happ) h

/-- Witness for the amended C4 theorem at a concrete one-approval run. -/
theorem index_membership_invariant_witness : indexInv exC1After :=
  index_membership_invariant exC0 [.nft exEnv "tok" "alice" 1 (some exArgsEmpty)]
    exC1After
    (by intro k sale hk; simp [exC0, mapGet] at hk)
    (by decide)

def exArgsTag : SaleArgs := { sale_conditions := [], token_type := some "a" }

def exArgsNoTag : SaleArgs := { sale_conditions := [], token_type := none }

def exC4Pre : Contract :=
  { storage_deposits := [("alice", 2 * STORAGE_PER_SALE)], ft_token_ids := [],
    sales := [], by_owner_id := [], by_nft_contract_id := [],
    by_nft_token_type := [] }

def exActTag : Approval := .nft exEnv "a1" "alice" 1 (some exArgsTag)

def exActNoTag : Approval := .nft exEnv "a1" "alice" 2 (some exArgsNoTag)

def exC4After : Contract :=
  { storage_deposits := [("alice", 2 * STORAGE_PER_SALE)], ft_token_ids := [],
    sales := [("nftc.a1", nftSale exEnv "a1" "alice" 2 exArgsNoTag [])],
    by_owner_id := [("alice", ["nftc.a1"])],
    by_nft_contract_id := [("nftc", ["nftc.a1"])],
    by_nft_token_type := [("a", ["nftc.a1"])] }

/-- C4 counterexample: re-approving the same item without its former
category tag leaves a stale by-category entry, so the "if and only if"
direction of the claimed index symmetry fails after a sequence of two
successful approvals from a consistent (empty) state. -/
theorem index_symmetry_counterexample :
    runOk exC4Pre [exActTag, exActNoTag] = some exC4After ∧
    ¬ indexSym exC4After := by
  constructor
  · decide
  · intro h
    have hmem : ("nftc.a1", nftSale exEnv "a1" "alice" 2 exArgsNoTag []) ∈
        exC4After.sales := by decide
    exact (h _ hmem).2.2 ⟨("a", ["nftc.a1"]), by decide, by decide⟩

/-! ## Claim C3: the quota accounting rule -/

theorem paid_le_of_units_le {paid used : Nat}
    (hmul : paid % STORAGE_PER_SALE = 0)
    (h : paid / STORAGE_PER_SALE ≤ used) : paid ≤ used * STORAGE_PER_SALE := by
  rcases Nat.dvd_of_mod_eq_zero hmul with ⟨q, rfl⟩
  rw [Nat.mul_div_cancel_left q STORAGE_PER_SALE_pos] at h
  rw [Nat.mul_comm]
  exact Nat.mul_le_mul_right STORAGE_PER_SALE h

/-- C3: with `paid` the lister's reserved quota units at check time and
`used` the pre-insertion count of the lister's by-lister index, each
operation succeeds only if `paid > used` strictly, and under otherwise
valid inputs a violation fails with the insufficient-quota error; the
count used is the pre-insertion one (`usedCount c o`).  For the category
path the unit purchased by the operation itself is included in `paid`
(`unitsOf c o + 1`).  Quota units are spec-modelled via `hmul`. -/
theorem quota_gate (c : Contract) (env : Env) (t : TokenId) (s : String)
    (o : AccountId) (a : Nat) (args margs : SaleArgs)
    (conds mconds : List (AccountId × Nat))
    (hmul : depositOf c o % STORAGE_PER_SALE = 0)
    (hc1 : buildConditions c.ft_token_ids args.sale_conditions = .ok conds)
    (hc2 : buildConditions c.ft_token_ids margs.sale_conditions = .ok mconds)
    (hatt : storage_amount ≤ env.attached_deposit) :
    (exceptOk (nft_on_approve c env t o a (some args)) = true →
      usedCount c o < unitsOf c o) ∧
    (unitsOf c o ≤ usedCount c o →
      nft_on_approve c env t o a (some args) = .error .insufficientQuota) ∧
    (exceptOk (series_on_approve c env s o margs) = true →
      usedCount c o < unitsOf c o + 1) ∧
    (unitsOf c o + 1 ≤ usedCount c o →
      series_on_approve c env s o margs = .error .insufficientQuota) := by
  refine ⟨?_, ?_, ?_, ?_⟩
  · intro hok
    obtain ⟨c', hc'⟩ := exceptOk_eq_true hok
    obtain ⟨args2, conds2, -, -, -, hq, -, -⟩ := nft_ok_elim hc'
    exact used_lt_units hmul hq
  · intro hle
    unfold unitsOf at hle
    rw [nft_on_approve_unfold]
    by_cases h1 : depositOf c o < STORAGE_PER_SALE
    · rw [if_pos h1]
    · rw [if_neg h1]
      simp only [hc1]
      rw [if_pos (paid_le_of_units_le hmul hle)]
  · intro hok
    obtain ⟨pr, hpr⟩ := exceptOk_eq_true hok
    obtain ⟨c2, r⟩ := pr
    obtain ⟨-, mconds2, -, hq, -, -⟩ := series_ok_elim hpr
    have hmul' : (depositOf c o + storage_amount) % STORAGE_PER_SALE = 0 := by
      unfold storage_amount
      rw [Nat.add_mod_right]
      exact hmul
    have hlt := used_lt_units hmul' hq
    unfold storage_amount at hlt
    rw [Nat.add_div_right _ STORAGE_PER_SALE_pos] at hlt
    exact hlt
  · intro hle
    unfold unitsOf at hle
    rw [series_on_approve_unfold]
    rw [if_neg (Nat.not_lt.mpr hatt)]
    simp only [hc2]
    have hmul' : (depositOf c o + storage_amount) % STORAGE_PER_SALE = 0 := by
      unfold storage_amount
      rw [Nat.add_mod_right]
      exact hmul
    have hle' : (depositOf c o + storage_amount) / STORAGE_PER_SALE ≤ usedCount c o := by
      unfold storage_amount
      rw [Nat.add_div_right _ STORAGE_PER_SALE_pos]
      exact hle
    rw [if_pos (paid_le_of_units_le hmul' hle')]

/-- Witness for the C3 theorem at a concrete lister with one paid unit
and no live listings. -/
theorem quota_gate_witness :
    (exceptOk (nft_on_approve exC0 exEnvPay "tok" "alice" 1 (some exArgsEmpty)) = true →
      usedCount exC0 "alice" < unitsOf exC0 "alice") ∧
    (unitsOf exC0 "alice" ≤ usedCount exC0 "alice" →
      nft_on_approve exC0 exEnvPay "tok" "alice" 1 (some exArgsEmpty) =
        .error .insufficientQuota) ∧
    (exceptOk (series_on_approve exC0 exEnvPay "ser" "alice" exArgsEmpty) = true →
      usedCount exC0 "alice" < unitsOf exC0 "alice" + 1) ∧
    (unitsOf exC0 "alice" + 1 ≤ usedCount exC0 "alice" →
      series_on_approve exC0 exEnvPay "ser" "alice" exArgsEmpty =
        .error .insufficientQuota) :=
  quota_gate exC0 exEnvPay "tok" "ser" "alice" 1 exArgsEmpty exArgsEmpty [] []
    (by decide) (by decide) (by decide) (by decide)

/-! ## Claim C5: upsert overwrite -/

/-- C5: two successful single-item approvals of the same listing key by
the same lister with different price conditions: the second fully
replaces the stored record (its conditions come entirely from the second
payload), and the by-lister and by-source-collection sets are unchanged
from after the first approval (the index insert of a present key is a
no-op). -/
theorem upsert_overwrite (c c1 c2 : Contract) (e1 e2 : Env) (t : TokenId)
    (o : AccountId) (a1 a2 : Nat) (args1 args2 : SaleArgs)
    (hpred : e2.predecessor_account_id = e1.predecessor_account_id)
    (hdiff : args1.sale_conditions ≠ args2.sale_conditions)
    (h1 : nft_on_approve c e1 t o a1 (some args1) = .ok c1)
    (h2 : nft_on_approve c1 e2 t o a2 (some args2) = .ok c2) :
    ∃ conds2,
      buildConditions c1.ft_token_ids args2.sale_conditions = .ok conds2 ∧
      mapGet c2.sales (listingKey e1.predecessor_account_id t) =
        some (nftSale e2 t o a2 args2 conds2) ∧
      usedCount c2 o = usedCount c1 o ∧
      contractSet c2 e1.predecessor_account_id =
        contractSet c1 e1.predecessor_account_id := by
  obtain ⟨args1x, conds1, hm1, -, hb1, -, -, rfl⟩ := nft_ok_elim h1
  injection hm1 with hm1
  subst hm1
  obtain ⟨args2x, conds2, hm2, -, hb2, -, -, rfl⟩ := nft_ok_elim h2
  injection hm2 with hm2
  subst hm2
  have hkey : listingKey e2.predecessor_account_id t =
      listingKey e1.predecessor_account_id t := by rw [hpred]
  have hmemO : listingKey e1.predecessor_account_id t ∈
      ownerSet (nftPost c e1 t o a1 args1 conds1) o := by
    rw [ownerSet_nftPost, if_pos rfl]
    exact mem_setInsert_self _ _
  have hmemC : listingKey e1.predecessor_account_id t ∈
      contractSet (nftPost c e1 t o a1 args1 conds1) e1.predecessor_account_id := by
    rw [contractSet_nftPost, if_pos rfl]
    exact mem_setInsert_self _ _
  refine ⟨conds2, hb2, ?_, ?_, ?_⟩
  · rw [sales_nftPost, if_pos hkey.symm]
  · unfold usedCount
    rw [ownerSet_nftPost _ e2, if_pos rfl, hkey, setInsert_of_mem _ hmemO]
  · rw [contractSet_nftPost _ e2, hpred, if_pos rfl, setInsert_of_mem _ hmemC]

def exC5Pre : Contract :=
  { storage_deposits := [("alice", 2 * STORAGE_PER_SALE)], ft_token_ids := ["ft"],
    sales := [], by_owner_id := [], by_nft_contract_id := [],
    by_nft_token_type := [] }

def exArgsP3 : SaleArgs :=
  { sale_conditions := [{ price := some 3, ft_token_id := "ft" }], token_type := none }

def exArgsP4 : SaleArgs :=
  { sale_conditions := [{ price := some 4, ft_token_id := "ft" }], token_type := none }

def exC5Mid : Contract := nftPost exC5Pre exEnv "tok" "alice" 1 exArgsP3 [("ft", 3)]

def exC5Fin : Contract := nftPost exC5Mid exEnvPay "tok" "alice" 2 exArgsP4 [("ft", 4)]

/-- Witness for the C5 theorem at two concrete approvals of the same key
with different prices. -/
theorem upsert_overwrite_witness :
    ∃ conds2,
      buildConditions exC5Mid.ft_token_ids exArgsP4.sale_conditions = .ok conds2 ∧
      mapGet exC5Fin.sales (listingKey exEnv.predecessor_account_id "tok") =
        some (nftSale exEnvPay "tok" "alice" 2 exArgsP4 conds2) ∧
      usedCount exC5Fin "alice" = usedCount exC5Mid "alice" ∧
      contractSet exC5Fin exEnv.predecessor_account_id =
        contractSet exC5Mid exEnv.predecessor_account_id :=
  upsert_overwrite exC5Pre exC5Mid exC5Fin exEnv exEnvPay "tok" "alice" 1 2
    exArgsP3 exArgsP4 (by decide) (by decide) (by decide) (by decide)

/-! ## Claim C6: the category substring rule -/

def exArgsAbc : SaleArgs := { sale_conditions := [], token_type := some "abc" }

def exArgsXyz : SaleArgs := { sale_conditions := [], token_type := some "xyz" }

/-- C6: a single-item approval carrying a category tag succeeds only if
the tag is a substring of the item id, and under otherwise valid inputs a
non-substring tag fails with the invalid-category-tag error; concretely,
item "abc#123" with tag "abc" succeeds and with tag "xyz" fails. -/
theorem category_substring_rule (c : Contract) (env : Env) (t : TokenId)
    (o : AccountId) (a : Nat) (args : SaleArgs) (tt : String) (c' : Contract)
    (htt : args.token_type = some tt)
    (hmin : STORAGE_PER_SALE ≤ depositOf c o)
    (hconds : exceptOk (buildConditions c.ft_token_ids args.sale_conditions) = true)
    (hquota : usedCount c o * STORAGE_PER_SALE < depositOf c o) :
    (nft_on_approve c env t o a (some args) = .ok c' → strContains t tt = true) ∧
    (strContains t tt = false →
      nft_on_approve c env t o a (some args) = .error .invalidCategoryTag) ∧
    exceptOk (nft_on_approve exC0 exEnv "abc#123" "alice" 1 (some exArgsAbc)) = true ∧
    nft_on_approve exC0 exEnv "abc#123" "alice" 1 (some exArgsXyz) =
      .error .invalidCategoryTag := by
  refine ⟨?_, ?_, by decide, by decide⟩
  · intro hok
    obtain ⟨args2, conds2, hm, -, -, -, hs, -⟩ := nft_ok_elim hok
    injection hm with hm
    subst hm
    exact hs tt (by rw [htt]; rfl)
  · intro hfalse
    obtain ⟨conds, hb⟩ := exceptOk_eq_true hconds
    rw [nft_on_approve_unfold, if_neg (Nat.not_lt.mpr hmin)]
    simp only [hb]
    rw [if_neg (Nat.not_le.mpr hquota), htt]
    show (if strContains t tt = true then
        (Except.ok (nftPost c env t o a args conds) : Except MarketError Contract)
      else Except.error MarketError.invalidCategoryTag) =
      Except.error MarketError.invalidCategoryTag
    rw [if_neg (by simp [hfalse])]

/-- Witness for the C6 theorem at the "xyz" instance. -/
theorem category_substring_rule_witness :
    (nft_on_approve exC0 exEnv "abc#123" "alice" 1 (some exArgsXyz) = .ok exC0 →
      strContains "abc#123" "xyz" = true) ∧
    (strContains "abc#123" "xyz" = false →
      nft_on_approve exC0 exEnv "abc#123" "alice" 1 (some exArgsXyz) =
        .error .invalidCategoryTag) ∧
    exceptOk (nft_on_approve exC0 exEnv "abc#123" "alice" 1 (some exArgsAbc)) = true ∧
    nft_on_approve exC0 exEnv "abc#123" "alice" 1 (some exArgsXyz) =
      .error .invalidCategoryTag :=
  category_substring_rule exC0 exEnv "abc#123" "alice" 1 exArgsXyz "xyz" exC0
    (by decide) (by decide) (by decide) (by decide)

/-! ## Claim C7: parse failures -/

/-- C7 counterexample: with no storage paid, a malformed payload fails
with the minimum-storage (insufficient-quota) assert, not
MalformedRequest — the storage check precedes parsing. -/
theorem malformed_not_first_counterexample :
    nft_on_approve exC0 exEnv "tok" "bob" 1 none = .error .insufficientQuota ∧
    nft_on_approve exC0 exEnv "tok" "bob" 1 none ≠ .error .malformedRequest := by
  decide

/-- C7 (amended): a single-item approval whose payload does not parse
fails with MalformedRequest, provided the lister has paid at least the
per-sale minimum storage, the one check the code runs before parsing. -/
theorem malformed_request_after_min_storage (c : Contract) (env : Env)
    (t : TokenId) (o : AccountId) (a : Nat)
    (hmin : STORAGE_PER_SALE ≤ depositOf c o) :
    nft_on_approve c env t o a none = .error .malformedRequest := by
  rw [nft_on_approve_unfold, if_neg (Nat.not_lt.mpr hmin)]

/-- Witness for the amended C7 theorem. -/
theorem malformed_request_after_min_storage_witness :
    nft_on_approve exC0 exEnv "tok" "alice" 1 none = .error .malformedRequest :=
  malformed_request_after_min_storage exC0 exEnv "tok" "alice" 1 (by decide)

/-! ## Claim C8: category approval quota purchase and refund -/

/-- C8: a successful category approval with attached payment P and quota
cost C = `storage_amount` ≤ P credits the lister with exactly one quota
unit (the deposit rises by exactly the unit cost, the capacity by exactly
one) and refunds exactly P − C. -/
theorem series_refund (c : Contract) (env : Env) (s : String) (o : AccountId)
    (m : SaleArgs) (c' : Contract) (r : Nat)
    (hCP : storage_amount ≤ env.attached_deposit)
    (h : series_on_approve c env s o m = .ok (c', r)) :
    depositOf c' o = depositOf c o + storage_amount ∧
    unitsOf c' o = unitsOf c o + 1 ∧
    r = env.attached_deposit - storage_amount := by
  obtain ⟨-, conds, hb, hq, hr, rfl⟩ := series_ok_elim h
  refine ⟨?_, ?_, hr⟩
  · rw [depositOf_seriesPost, depositOf_creditDeposit, if_pos rfl]
  · unfold unitsOf
    rw [depositOf_seriesPost, depositOf_creditDeposit, if_pos rfl]
    unfold storage_amount
    exact Nat.add_div_right _ STORAGE_PER_SALE_pos

def exC8Fin : Contract :=
  seriesPost (creditDeposit exC0 "alice" storage_amount) exEnvPay "ser" "alice" []

/-- Witness for the C8 theorem at a concrete category approval paying
one unit cost plus 5. -/
theorem series_refund_witness :
    depositOf exC8Fin "alice" = depositOf exC0 "alice" + storage_amount ∧
    unitsOf exC8Fin "alice" = unitsOf exC0 "alice" + 1 ∧
    (5 : Nat) = exEnvPay.attached_deposit - storage_amount :=
  series_refund exC0 exEnvPay "ser" "alice" exArgsEmpty exC8Fin 5
    (by decide) (by decide)

/-! ## Claim C9: absent prices stored as zero -/

def exC9Args : SaleArgs :=
  { sale_conditions := [{ price := none, ft_token_id := "ft" },
                        { price := some 5, ft_token_id := "ft" }],
    token_type := none }

/-- C9 counterexample: a sale-conditions list with an absent-price entry
for "ft" followed by a later entry pricing "ft" at 5 succeeds and stores
5 for "ft", not 0 — the absent-price entry does not end up stored as 0. -/
theorem absent_price_counterexample :
    exceptOk (nft_on_approve exC0 exEnv "tok" "alice" 1 (some exC9Args)) = true ∧
    mapGet (saleAt (applyWithRollback exC0
      (.nft exEnv "tok" "alice" 1 (some exC9Args))).1 "nftc.tok").conditions "ft" =
      some 5 ∧
    mapGet (saleAt (applyWithRollback exC0
      (.nft exEnv "tok" "alice" 1 (some exC9Args))).1 "nftc.tok").conditions "ft" ≠
      some 0 := by
  decide

/-- C9 (amended): for either approval, when the last sale-conditions
entry for a currency has an absent price, a successful operation stores
exactly 0 for that currency ("open to bids") rather than rejecting the
entry or omitting the currency. -/
theorem absent_price_stored_as_zero (c : Contract) (env : Env) (t : TokenId)
    (s : String) (o : AccountId) (a : Nat) (args margs : SaleArgs)
    (ft : AccountId) (c1 c2 : Contract) (r : Nat)
    (hl1 : lastPriceFor args.sale_conditions ft = some none)
    (hl2 : lastPriceFor margs.sale_conditions ft = some none)
    (h1 : nft_on_approve c env t o a (some args) = .ok c1)
    (h2 : series_on_approve c env s o margs = .ok (c2, r)) :
    mapGet (saleAt c1 (listingKey env.predecessor_account_id t)).conditions ft =
      some 0 ∧
    mapGet (saleAt c2 (listingKey env.predecessor_account_id s)).conditions ft =
      some 0 := by
  constructor
  · obtain ⟨args2, conds, hm, -, hb, -, -, rfl⟩ := nft_ok_elim h1
    injection hm with hm
    subst hm
    unfold saleAt
    rw [sales_nftPost, if_pos rfl]
    simp only [Option.getD_some, nftSale_conditions]
    have hlk := buildConditionsAux_lookup c.ft_token_ids args.sale_conditions []
      conds hb ft
    rw [hl1] at hlk
    exact hlk
  · obtain ⟨-, conds, hb, -, -, rfl⟩ := series_ok_elim h2
    unfold saleAt
    rw [sales_seriesPost, if_pos rfl]
    simp only [Option.getD_some, seriesSale_conditions]
    have hlk := buildConditionsAux_lookup c.ft_token_ids margs.sale_conditions []
      conds hb ft
    rw [hl2] at hlk
    exact hlk

def exC9Last : SaleArgs :=
  { sale_conditions := [{ price := none, ft_token_id := "ft" }], token_type := none }

def exC9Nft : Contract := nftPost exC0 exEnvPay "tok" "alice" 1 exC9Last [("ft", 0)]

def exC9Ser : Contract :=
  seriesPost (creditDeposit exC0 "alice" storage_amount) exEnvPay "ser" "alice"
    [("ft", 0)]

/-- Witness for the amended C9 theorem. -/
theorem absent_price_stored_as_zero_witness :
    mapGet (saleAt exC9Nft (listingKey exEnvPay.predecessor_account_id "tok")).conditions "ft" = some 0 ∧
    mapGet (saleAt exC9Ser (listingKey exEnvPay.predecessor_account_id "ser")).conditions "ft" = some 0 :=
  absent_price_stored_as_zero exC0 exEnvPay "tok" "ser" "alice" 1 exC9Last exC9Last
    "ft" exC9Nft exC9Ser 5 (by decide) (by decide) (by decide) (by decide)

/-! ## Claim C10: duplicate currencies, last occurrence wins -/

/-- C10: a sale-conditions list with two or more entries for the same
supported currency does not make the condition-building loop fail: the
built (and, on success of either operation, stored) price conditions
contain that currency exactly once, priced by its last occurrence. -/
theorem duplicate_currency_last_wins (c : Contract) (env : Env) (t : TokenId)
    (s : String) (o : AccountId) (a : Nat) (args margs : SaleArgs)
    (ft : AccountId) (pr mpr : Option Nat)
    (hsup : ∀ p ∈ args.sale_conditions, p.ft_token_id ∈ c.ft_token_ids)
    (hmsup : ∀ p ∈ margs.sale_conditions, p.ft_token_id ∈ c.ft_token_ids)
    (hdup : 2 ≤ args.sale_conditions.countP (fun p => p.ft_token_id == ft))
    (hlast : lastPriceFor args.sale_conditions ft = some pr)
    (hmlast : lastPriceFor margs.sale_conditions ft = some mpr)
    (hmin : STORAGE_PER_SALE ≤ depositOf c o)
    (hquota : usedCount c o * STORAGE_PER_SALE < depositOf c o)
    (htag : ∀ tt ∈ args.token_type, strContains t tt = true)
    (hatt : storage_amount ≤ env.attached_deposit) :
    ∃ conds,
      buildConditions c.ft_token_ids args.sale_conditions = .ok conds ∧
      (mapKeys conds).Nodup ∧
      (mapKeys conds).count ft = 1 ∧
      mapGet conds ft = some (pr.getD 0) ∧
      (∃ c1, nft_on_approve c env t o a (some args) = .ok c1 ∧
        (saleAt c1 (listingKey env.predecessor_account_id t)).conditions = conds) ∧
      (∃ c2 r2 mconds,
        buildConditions c.ft_token_ids margs.sale_conditions = .ok mconds ∧
        series_on_approve c env s o margs = .ok (c2, r2) ∧
        (saleAt c2 (listingKey env.predecessor_account_id s)).conditions = mconds ∧
        mapGet mconds ft = some (mpr.getD 0)) := by
  obtain ⟨conds, hb⟩ := buildConditionsAux_ok c.ft_token_ids [] args.sale_conditions hsup
  obtain ⟨mconds, hmb⟩ := buildConditionsAux_ok c.ft_token_ids [] margs.sale_conditions hmsup
  have hlk := buildConditionsAux_lookup c.ft_token_ids args.sale_conditions []
    conds hb ft
  rw [hlast] at hlk
  have hlk' : mapGet conds ft = some (pr.getD 0) := hlk
  have hmlk := buildConditionsAux_lookup c.ft_token_ids margs.sale_conditions []
    mconds hmb ft
  rw [hmlast] at hmlk
  have hmlk' : mapGet mconds ft = some (mpr.getD 0) := hmlk
  have hnodup := buildConditionsAux_keys_nodup c.ft_token_ids args.sale_conditions []
    conds hb (by simp)
  refine ⟨conds, hb, hnodup,
    List.count_eq_one_of_mem hnodup (mapGet_mem_keys conds hlk'), hlk', ?_, ?_⟩
  · refine ⟨nftPost c env t o a args conds, nft_ok_intro hmin hb hquota htag, ?_⟩
    unfold saleAt
    rw [sales_nftPost, if_pos rfl]
    simp only [Option.getD_some, nftSale_conditions]
  · refine ⟨seriesPost (creditDeposit c o storage_amount) env s o mconds,
      env.attached_deposit - storage_amount, mconds, hmb,
      series_ok_intro hatt hmb
        (Nat.lt_of_lt_of_le hquota (Nat.le_add_right _ _)), ?_, hmlk'⟩
    unfold saleAt
    rw [sales_seriesPost, if_pos rfl]
    simp only [Option.getD_some, seriesSale_conditions]

/-- Witness for the C10 theorem at a concrete duplicate-currency input. -/
theorem duplicate_currency_last_wins_witness :
    ∃ conds,
      buildConditions exC0.ft_token_ids exC9Args.sale_conditions = .ok conds ∧
      (mapKeys conds).Nodup ∧
      (mapKeys conds).count "ft" = 1 ∧
      mapGet conds "ft" = some ((some 5).getD 0) ∧
      (∃ c1, nft_on_approve exC0 exEnvPay "tok" "alice" 1 (some exC9Args) = .ok c1 ∧
        (saleAt c1 (listingKey exEnvPay.predecessor_account_id "tok")).conditions = conds) ∧
      (∃ c2 r2 mconds,
        buildConditions exC0.ft_token_ids exC9Args.sale_conditions = .ok mconds ∧
        series_on_approve exC0 exEnvPay "ser" "alice" exC9Args = .ok (c2, r2) ∧
        (saleAt c2 (listingKey exEnvPay.predecessor_account_id "ser")).conditions = mconds ∧
        mapGet mconds "ft" = some ((some 5).getD 0)) :=
  duplicate_currency_last_wins exC0 exEnvPay "tok" "ser" "alice" 1 exC9Args exC9Args
    "ft" (some 5) (some 5)
    (by decide) (by decide) (by decide) (by decide) (by decide) (by decide)
    (by decide) (by intro tt h; simp [exC9Args] at h) (by decide)

end Gnr8
